import Mathlib

/-!
Verification of the MDAP-Agent voting core and orchestrator state machine.

This file shallowly embeds the Python sources of the repository:

* `mdap/mdap/red_flag.py`   — the red-flag candidate filter,
* `mdap/mdap/discriminator.py` — semantic grouping of candidates,
* `mdap/mdap/voter.py`      — the first-to-ahead-by-k voting loop,
* `mdap_cli/orchestrator/state.py` and `orchestrator.py` — the pipeline
  finite-state machine with pause / resume / cancel,
* `mdap_cli/orchestrator/intent.py` — the intent-classification reply parser.

External effects are embedded as explicit parameters: the LLM semantic
comparison `client.compare_semantic` becomes a pure oracle
`eq : String → String → Bool`; the Python standard-library parser
`ast.parse` (not part of the repository) becomes a pure oracle
`pyParse : String → Option String` returning `none` on success and the
formatted error reason on failure; the candidate generator passed to
`Voter.vote` becomes a finite list of outcomes, one per invocation.
Wall-clock timestamps (`datetime.now`) and log statements are omitted:
no claim refers to them.
-/

namespace Mdap

/-- `mdap.types.Language` (the enum has exactly these two members). -/
inductive Language where
  | python
  | typescript
  deriving DecidableEq, Repr

/-- The fields of `mdap.types.MDAPConfig` that the voting core reads.
`temperature`, `model` and the timeout fields are passed through to the
LLM transport only and are not consulted by the embedded code. -/
structure MDAPConfig where
  k : Nat := 3
  max_samples : Nat := 20
  max_tokens_response : Nat := 500
  enable_syntax_check : Bool := true
  enable_length_check : Bool := true
  enable_format_check : Bool := true
  deriving Repr, DecidableEq

/-- `mdap.types.Candidate`. The random `id` field is only used for
hashing in Python and is omitted; all other fields are kept. The
Python object is mutated in place by the red-flag filter and the
discriminator; the embedding passes updated copies instead, and lists
that alias the mutated object receive the updated copy. -/
structure Candidate where
  code : String
  tokens_used : Nat
  is_valid : Bool := true
  red_flag_reason : Option String := none
  group_id : Option String := none
  deriving Repr, DecidableEq

/-- Whitespace as stripped by Python `str.strip()` (ASCII part; the
repository never feeds non-ASCII whitespace to the filter). -/
def isPySpace (c : Char) : Bool :=
  c = ' ' || c = '\t' || c = '\n' || c = '\r' || c = Char.ofNat 11 || c = Char.ofNat 12

/-- Python `str.strip()`. -/
def pyStrip (s : String) : String :=
  String.mk (((s.data.dropWhile isPySpace).reverse.dropWhile isPySpace).reverse)

/-- The apostrophe character. -/
def apos : Char := Char.ofNat 39

/-- Case-insensitive literal prefix: consumes `pat` (given in lowercase)
from the head of `s`, comparing lowercased characters. Models a literal
run inside an `re.IGNORECASE` pattern. -/
def dropPrefixCI : List Char → List Char → Option (List Char)
  | [], s => some s
  | _, [] => none
  | p :: ps, c :: cs => if c.toLower = p then dropPrefixCI ps cs else none

/-- Regex `\s+`: one or more whitespace characters (greedy; all the
patterns below follow `\s+` with a non-space literal or nothing, so
maximal munch is exact). -/
def dropWs1 (s : List Char) : Option (List Char) :=
  match s with
  | c :: cs => if isPySpace c then some (cs.dropWhile isPySpace) else none
  | [] => none

/-- Optionally consume one specific character (regex `x?`; in the
patterns below the optional character never overlaps what follows, so
greedy consumption is exact). -/
def dropOpt (x : Char) (s : List Char) : List Char :=
  match s with
  | c :: cs => if c.toLower = x then cs else s
  | [] => s

/-- Regex `^Here'?s?\s+(the|a|an)\s+` with `re.IGNORECASE`. -/
def matchHeres (s : List Char) : Bool :=
  match dropPrefixCI "here".data s with
  | none => false
  | some s1 =>
    match dropWs1 (dropOpt 's' (dropOpt apos s1)) with
    | none => false
    | some s2 =>
      (match dropPrefixCI "the".data s2 with
       | some s3 => (dropWs1 s3).isSome
       | none => false)
      || (match dropPrefixCI "a".data s2 with
          | some s3 => (dropWs1 s3).isSome
          | none => false)
      || (match dropPrefixCI "an".data s2 with
          | some s3 => (dropWs1 s3).isSome
          | none => false)

/-- Regex `^I'?ll\s+` with `re.IGNORECASE`. -/
def matchIll (s : List Char) : Bool :=
  match dropPrefixCI "i".data s with
  | none => false
  | some s1 =>
    match dropPrefixCI "ll".data (dropOpt apos s1) with
    | none => false
    | some s2 => (dropWs1 s2).isSome

/-- Regex `^This\s+(function|code|implementation)` with `re.IGNORECASE`. -/
def matchThis (s : List Char) : Bool :=
  match dropPrefixCI "this".data s with
  | none => false
  | some s1 =>
    match dropWs1 s1 with
    | none => false
    | some s2 =>
      (dropPrefixCI "function".data s2).isSome
      || (dropPrefixCI "code".data s2).isSome
      || (dropPrefixCI "implementation".data s2).isSome

/-- Regex `^The\s+following` with `re.IGNORECASE`. -/
def matchTheFollowing (s : List Char) : Bool :=
  match dropPrefixCI "the".data s with
  | none => false
  | some s1 =>
    match dropWs1 s1 with
    | none => false
    | some s2 => (dropPrefixCI "following".data s2).isSome

/-- `re.match` of any of the four `explanation_patterns` of
`RedFlagFilter._check_format` against the (already stripped) code. -/
def matchesProse (code : String) : Bool :=
  matchHeres code.data || matchIll code.data || matchThis code.data
    || matchTheFollowing code.data

/-- `RedFlagFilter._check_length`. -/
def checkLengthFn (cfg : MDAPConfig) (cand : Candidate) : Bool :=
  cand.tokens_used ≤ cfg.max_tokens_response

/-- The reason string built inline in `RedFlagFilter.check` when the
length check fails. -/
def lengthReason (cfg : MDAPConfig) (cand : Candidate) : String :=
  "Response too long (" ++ toString cand.tokens_used ++ " tokens > "
    ++ toString cfg.max_tokens_response ++ ")"

/-- `RedFlagFilter._check_format`. -/
def checkFormatFn (cand : Candidate) : Bool × Option String :=
  let code := pyStrip cand.code
  if code.isEmpty then (false, some "Empty code")
  else if code.length < 10 then (false, some "Code too short")
  else if matchesProse code then
    (false, some "Contains explanation instead of code")
  else (true, none)

/-- The language tags recognised by the fenced-block regex of
`RedFlagFilter._extract_code`, in alternation order. -/
def fenceTags : List String := ["python", "typescript", "javascript", "js", "ts"]

/-- The backtick character. -/
def backquote : Char := Char.ofNat 96

/-- Split a character list on non-overlapping occurrences of the
three-backtick fence, scanning left to right (Python
`str.split` on the fence). `acc` holds the current segment reversed. -/
def splitFence : List Char → List Char → List (List Char)
  | b1 :: b2 :: b3 :: rest, acc =>
    if b1 = backquote && b2 = backquote && b3 = backquote then
      acc.reverse :: splitFence rest []
    else splitFence (b2 :: b3 :: rest) (b1 :: acc)
  | s, acc => [acc.reverse ++ s]

/-- Consume the optional language tag and the optional newline that
follow the opening fence in `_extract_code` (alternation tried in the
regex's order, so `javascript` wins over `js`). -/
def stripLangTag (s : List Char) : List Char :=
  let afterTag :=
    match (fenceTags.map String.data).find? (fun t => t.isPrefixOf s) with
    | some t => s.drop t.length
    | none => s
  match afterTag with
  | c :: cs => if c = '\n' then cs else afterTag
  | [] => afterTag

/-- `RedFlagFilter._extract_code`: the first (non-greedy) fenced block
is the text between the first and second occurrence of three backticks,
with the language tag and one optional newline consumed and the capture
stripped; if no complete block exists the whole text is stripped. -/
def extractCode (text : String) : String :=
  match splitFence text.data [] with
  | _ :: seg :: _ :: _ => pyStrip (String.mk (stripLangTag seg))
  | _ => pyStrip text

/-- Python `repr` of the leftover closer stack, as interpolated into the
`"Unclosed brackets: {stack}"` message. The Lean stack has its head at
the push end, Python prints the list bottom-first, hence the reverse. -/
def stackRepr (stack : List Char) : String :=
  "[" ++ String.intercalate ", "
    (stack.reverse.map (fun c => apos.toString ++ c.toString ++ apos.toString))
    ++ "]"

/-- The character loop of `RedFlagFilter._check_typescript_syntax`:
`stack` holds expected closers (head = most recent), `sc` is the open
quote character when inside a string literal. -/
def tsBracketLoop : List Char → List Char → Option Char → Bool × Option String
  | [], stack, _ =>
    if stack.isEmpty then (true, none)
    else (false, some ("Unclosed brackets: " ++ stackRepr stack))
  | c :: rest, stack, sc =>
    if sc = none && (c = '"' || c = apos || c = Char.ofNat 96) then
      tsBracketLoop rest stack (some c)
    else if sc = some c then
      tsBracketLoop rest stack none
    else if sc = none then
      if c = '{' then tsBracketLoop rest ('}' :: stack) none
      else if c = '[' then tsBracketLoop rest (']' :: stack) none
      else if c = '(' then tsBracketLoop rest (')' :: stack) none
      else if c = '}' || c = ']' || c = ')' then
        match stack with
        | [] => (false, some ("Unbalanced brackets at " ++ apos.toString
                  ++ c.toString ++ apos.toString))
        | top :: stack' =>
          if top = c then tsBracketLoop rest stack' none
          else (false, some ("Unbalanced brackets at " ++ apos.toString
                  ++ c.toString ++ apos.toString))
      else tsBracketLoop rest stack none
    else tsBracketLoop rest stack sc

/-- `RedFlagFilter._check_typescript_syntax`. -/
def checkTypescriptSyntax (code : String) : Bool × Option String :=
  tsBracketLoop code.data [] none

/-- `RedFlagFilter._check_syntax`. `pyParse` is the `ast.parse` oracle:
`none` when the code parses, `some reason` with the formatted message
otherwise (the standard-library parser is outside the repository). The
`Language` enum has no third member, so the permissive fallback branch
of the Python code is unreachable. -/
def checkSyntaxFn (pyParse : String → Option String) (cand : Candidate)
    (lang : Language) : Bool × Option String :=
  let code := extractCode cand.code
  match lang with
  | .python =>
    match pyParse code with
    | none => (true, none)
    | some reason => (false, some reason)
  | .typescript => checkTypescriptSyntax code

/-- Verdict of the red-flag filter (`RedFlagResult`; the auxiliary
`checks` dictionary is diagnostic only and omitted). -/
structure RedFlagResult where
  passed : Bool
  reason : Option String
  deriving Repr, DecidableEq

/-- `RedFlagFilter.check`, with the source's early returns rendered as
nested conditionals in the same order: length, then format, then
syntax, each guarded by its configuration flag. -/
def check (pyParse : String → Option String) (cfg : MDAPConfig)
    (cand : Candidate) (lang : Language) : RedFlagResult :=
  if cfg.enable_length_check && !(checkLengthFn cfg cand) then
    { passed := false, reason := some (lengthReason cfg cand) }
  else if cfg.enable_format_check && !(checkFormatFn cand).1 then
    { passed := false, reason := (checkFormatFn cand).2 }
  else if cfg.enable_syntax_check && !(checkSyntaxFn pyParse cand lang).1 then
    { passed := false, reason := (checkSyntaxFn pyParse cand lang).2 }
  else
    { passed := true, reason := none }

/-- Modelled from the spec: run the enabled checks in the fixed order
length, format, syntax, short-circuiting on the first failure and
returning that check's reason; pass when every enabled check passes. -/
def runFirstFailure : List (Bool × Bool × Option String) → RedFlagResult
  | [] => { passed := true, reason := none }
  | (enabled, ok, reason) :: rest =>
    if enabled && !ok then { passed := false, reason := reason }
    else runFirstFailure rest

/-- Modelled from the spec: the ordered list of (enabled, verdict,
reason) triples for the three checks, built from the same leaf checks
the source uses. -/
def orderedChecks (pyParse : String → Option String) (cfg : MDAPConfig)
    (cand : Candidate) (lang : Language) : List (Bool × Bool × Option String) :=
  [ (cfg.enable_length_check, checkLengthFn cfg cand,
      if checkLengthFn cfg cand then none else some (lengthReason cfg cand)),
    (cfg.enable_format_check, (checkFormatFn cand).1, (checkFormatFn cand).2),
    (cfg.enable_syntax_check, (checkSyntaxFn pyParse cand lang).1,
      (checkSyntaxFn pyParse cand lang).2) ]

/-- `mdap.mdap.discriminator.SemanticGroup`. -/
structure SemanticGroup where
  id : String
  representative : Candidate
  members : List Candidate
  deriving Repr, DecidableEq

/-- `SemanticGroup.votes`: the vote count is the member count. -/
def SemanticGroup.votes (g : SemanticGroup) : Nat := g.members.length

/-- The discriminator's memoisation table
(`Discriminator._comparison_cache`), an association list keyed by
stripped code pairs. -/
def Cache := List ((String × String) × Bool)

/-- `Discriminator._cache_key`. -/
def cacheKey (a b : String) : String × String := (pyStrip a, pyStrip b)

/-- Dictionary lookup in the comparison cache. -/
def cacheFind (c : Cache) (key : String × String) : Option Bool :=
  match c.find? (fun e => e.1 = key) with
  | some e => some e.2
  | none => none

/-- `Discriminator.compare`: answer from the cache when present,
otherwise ask the oracle `eq` (the LLM `compare_semantic` call) and
record the answer under both key orders. -/
def compareFn (eq : String → String → Bool) (c : Cache) (a b : String) :
    Bool × Cache :=
  match cacheFind c (cacheKey a b) with
  | some v => (v, c)
  | none =>
    let v := eq a b
    (v, (cacheKey b a, v) :: (cacheKey a b, v) :: c)

/-- `Discriminator.find_group`: walk the insertion-ordered group list,
comparing the candidate's code against each representative, threading
the cache; stop at the first YES. -/
def findGroup (eq : String → String → Bool) (c : Cache) (code : String) :
    List SemanticGroup → Option SemanticGroup × Cache
  | [] => (none, c)
  | g :: gs =>
    let (r, c') := compareFn eq c code g.representative.code
    if r then (some g, c') else findGroup eq c' code gs

/-- Discriminator state: the insertion-ordered group list (a Python
dict keyed by group id, insertion-ordered) and the comparison cache. -/
structure Discriminator where
  groups : List SemanticGroup
  cache : Cache

/-- The in-place `SemanticGroup.add` mutation on the group with the
given id: set the candidate's `group_id`, then append it to the
member list. -/
def addToGroup (gs : List SemanticGroup) (gid : String) (cand : Candidate) :
    List SemanticGroup :=
  gs.map (fun g => if g.id = gid then { g with members := g.members ++ [cand] } else g)

/-- `Discriminator.classify`: find a matching group and join it, or
create a new group `group_n` (n = number of existing groups) whose
representative is the candidate and whose member list starts with it.
Returns the updated discriminator together with the updated candidate
(in Python the candidate object is mutated; the copy stored in the
group carries the assigned `group_id`, as the aliasing does). -/
def classify (eq : String → String → Bool) (d : Discriminator)
    (cand : Candidate) : Discriminator × Candidate :=
  match findGroup eq d.cache cand.code d.groups with
  | (some g, c') =>
    let cand' := { cand with group_id := some g.id }
    ({ groups := addToGroup d.groups g.id cand', cache := c' }, cand')
  | (none, c') =>
    let gid := "group_" ++ toString d.groups.length
    let cand' := { cand with group_id := some gid }
    ({ groups := d.groups ++ [⟨gid, cand', [cand']⟩], cache := c' }, cand')

/-- Stable descending insertion for groups: models Python
`sorted(..., key=lambda g: g.votes, reverse=True)`, which keeps the
original order among groups with equal votes. -/
def insertGroupDesc (g : SemanticGroup) : List SemanticGroup → List SemanticGroup
  | [] => [g]
  | h :: t => if h.votes > g.votes then h :: insertGroupDesc g t else g :: h :: t

/-- Stable descending sort of groups by vote count. -/
def sortGroupsDesc : List SemanticGroup → List SemanticGroup
  | [] => []
  | g :: gs => insertGroupDesc g (sortGroupsDesc gs)

/-- Descending insertion for naturals (for
`sorted(votes_per_group.values(), reverse=True)`). -/
def insertNatDesc (n : Nat) : List Nat → List Nat
  | [] => [n]
  | h :: t => if h > n then h :: insertNatDesc n t else n :: h :: t

/-- Descending sort of naturals. -/
def sortNatDesc : List Nat → List Nat
  | [] => []
  | n :: ns => insertNatDesc n (sortNatDesc ns)

/-- `Discriminator.get_winner`: sort groups by votes descending; the
leader wins when its lead over the runner-up (0 when there is no other
group) is at least `k`. -/
def getWinner (k : Nat) (gs : List SemanticGroup) : Option SemanticGroup :=
  match sortGroupsDesc gs with
  | [] => none
  | leader :: rest =>
    let runnerUp := match rest with
      | [] => 0
      | r :: _ => r.votes
    if leader.votes - runnerUp ≥ k then some leader else none

/-- One outcome of invoking the candidate generator: a normal return
carrying the response content and output-token count, or a raised
exception. -/
inductive GenOutcome where
  | ok (content : String) (tokens : Nat)
  | err
  deriving Repr, DecidableEq

/-- Count of generator invocations that returned normally. -/
def countOk (outs : List GenOutcome) : Nat :=
  outs.countP (fun o => o matches GenOutcome.ok _ _)

/-- The mutable state of one `Voter.vote` call: the `VotingSession`
lists plus the (reset) discriminator. -/
structure VoteState where
  samples : List Candidate
  valid_samples : List Candidate
  invalid_samples : List Candidate
  is_complete : Bool
  winner : Option SemanticGroup
  disc : Discriminator

/-- The empty state `vote` starts from (fresh session, reset
discriminator). -/
def initVoteState : VoteState :=
  { samples := [], valid_samples := [], invalid_samples := [],
    is_complete := false, winner := none, disc := ⟨[], []⟩ }

/-- `Candidate(code=response.content, tokens_used=response.tokens_output)`. -/
def mkCandidate (content : String) (tokens : Nat) : Candidate :=
  { code := content, tokens_used := tokens }

/-- The candidate after a red-flag rejection records it
(`is_valid = False`, the filter's reason). -/
def flagCandidate (cand : Candidate) (fr : RedFlagResult) : Candidate :=
  { cand with is_valid := false, red_flag_reason := fr.reason }

/-- One iteration of the `Voter.vote` loop body on one generator
outcome. A raised generator call leaves the state untouched (the
sample is not counted). A normal return is wrapped in a candidate and
counted in `samples`; a red-flagged candidate is recorded invalid and
skipped before classification; a surviving candidate is classified and
the discriminator is asked for a winner with margin `k`. -/
def voteIter (eq : String → String → Bool) (pyParse : String → Option String)
    (cfg : MDAPConfig) (lang : Language) (k : Nat) (st : VoteState) :
    GenOutcome → VoteState
  | .err => st
  | .ok content tokens =>
    let cand := mkCandidate content tokens
    let fr := check pyParse cfg cand lang
    if fr.passed then
      let (disc', cand') := classify eq st.disc cand
      let st' := { st with
        samples := st.samples ++ [cand'],
        valid_samples := st.valid_samples ++ [cand'],
        disc := disc' }
      match getWinner k disc'.groups with
      | some w => { st' with is_complete := true, winner := some w }
      | none => st'
    else
      let cand' := flagCandidate cand fr
      { st with
        samples := st.samples ++ [cand'],
        invalid_samples := st.invalid_samples ++ [cand'] }

/-- The `while len(session.samples) < max_samples and not
session.is_complete` loop of `Voter.vote`, driven by the finite list of
generator outcomes. Returns the final state and the number of
generator invocations made; `none` when the provided outcome list is
exhausted while the loop guard still holds (the generator's further
behaviour is unspecified). -/
def voteLoop (eq : String → String → Bool) (pyParse : String → Option String)
    (cfg : MDAPConfig) (lang : Language) (k maxSamples : Nat) :
    List GenOutcome → VoteState → Option VoteState × Nat
  | [], st =>
    if st.samples.length < maxSamples && !st.is_complete then (none, 0)
    else (some st, 0)
  | o :: rest, st =>
    if st.samples.length < maxSamples && !st.is_complete then
      match voteLoop eq pyParse cfg lang k maxSamples rest
          (voteIter eq pyParse cfg lang k st o) with
      | (res, n) => (res, n + 1)
    else (some st, 0)

/-- `mdap.types.VoteResult`. The Python dicts (insertion-ordered) are
association lists in group-creation order. -/
structure VoteResult where
  winner : Candidate
  groups : List (String × List Candidate)
  votes_per_group : List (String × Nat)
  total_samples : Nat
  winning_margin : Nat
  deriving Repr, DecidableEq

/-- The `winning_margin` computed at the end of `Voter.vote`: 0 unless
more than one group exists, otherwise the difference between the two
largest vote counts. -/
def marginOf (gs : List SemanticGroup) : Nat :=
  if 1 < gs.length then
    match sortNatDesc (gs.map SemanticGroup.votes) with
    | a :: b :: _ => a - b
    | _ => 0
  else 0

/-- The result-assembly tail of `Voter.vote` (lines 116-148): the
winner's representative, or the representative of the plurality group
when no winner was declared; `none` models the `ValueError` raised when
no group exists (no valid candidates). -/
def buildResult (st : VoteState) : Option VoteResult :=
  let gs := st.disc.groups
  let winnerCand :=
    match st.winner with
    | some w => some w.representative
    | none =>
      match sortGroupsDesc gs with
      | [] => none
      | g :: _ => some g.representative
  match winnerCand with
  | none => none
  | some wc =>
    some { winner := wc,
           groups := gs.map (fun g => (g.id, g.members)),
           votes_per_group := gs.map (fun g => (g.id, g.votes)),
           total_samples := st.samples.length,
           winning_margin := marginOf gs }

/-- `Voter.vote` with the per-call defaults already resolved (Python
`k = k or self.config.k` replaces `None` or `0` by the configured
value, so the effective `k` and `max_samples` are the configured
positives). Outer `none`: the outcome list was too short to finish the
loop. Inner `none`: the `ValueError` for zero valid candidates. -/
def vote (eq : String → String → Bool) (pyParse : String → Option String)
    (cfg : MDAPConfig) (lang : Language) (k maxSamples : Nat)
    (outs : List GenOutcome) : Option (Option VoteResult) :=
  match voteLoop eq pyParse cfg lang k maxSamples outs initVoteState with
  | (some st, _) => some (buildResult st)
  | (none, _) => none

end Mdap

namespace MdapCli

/-- `mdap_cli.orchestrator.state.PipelineState`. -/
inductive PipelineState where
  | idle
  | expanding
  | decomposing
  | generating
  | validating
  | paused
  | awaiting_decision
  | completed
  | error
  deriving DecidableEq, Repr

/-- `mdap_cli.orchestrator.state.VALID_TRANSITIONS`, as a function from
a state to the set (list) of allowed successor states. -/
def validTransitions : PipelineState → List PipelineState
  | .idle => [.expanding]
  | .expanding => [.decomposing, .paused, .error, .awaiting_decision]
  | .decomposing => [.generating, .paused, .error, .awaiting_decision]
  | .generating => [.validating, .completed, .paused, .error, .awaiting_decision]
  | .validating => [.completed, .generating, .paused, .error, .awaiting_decision]
  | .paused => [.expanding, .decomposing, .generating, .validating, .idle]
  | .awaiting_decision =>
      [.expanding, .decomposing, .generating, .validating, .paused, .idle]
  | .completed => [.idle]
  | .error => [.idle]

/-- `mdap_cli.orchestrator.state.EXECUTION_PHASES`. -/
def executionPhases : List PipelineState :=
  [.expanding, .decomposing, .generating, .validating]

/-- `mdap_cli.orchestrator.state.StateTransition` (timestamp omitted:
wall-clock time, no claim refers to it). -/
structure StateTransition where
  from_state : PipelineState
  to_state : PipelineState
  reason : String
  deriving DecidableEq, Repr

/-- `mdap_cli.orchestrator.state.OrchestratorState` (the `started_at`
and `completed_at` timestamps are omitted: wall-clock time). -/
structure OrchestratorState where
  current : PipelineState := .idle
  previous : Option PipelineState := none
  task : String := ""
  current_phase_detail : String := ""
  transition_history : List StateTransition := []
  error_message : Option String := none
  deriving DecidableEq, Repr

/-- The default-constructed orchestrator state. -/
def initOrchState : OrchestratorState := {}

/-- `OrchestratorState.can_transition`. -/
def canTransition (st : OrchestratorState) (tgt : PipelineState) : Bool :=
  (validTransitions st.current).contains tgt

/-- `OrchestratorState.transition`: reject (returning `False` with the
state untouched) when the pair is not in the table; otherwise append
the transition to the history, save the prior state when entering
`PAUSED`, and move. The function is total — the Python method contains
no `raise` and signals rejection only through its boolean return. -/
def transition (st : OrchestratorState) (tgt : PipelineState) (reason : String) :
    Bool × OrchestratorState :=
  if canTransition st tgt then
    (true,
      { st with
        transition_history := st.transition_history
          ++ [{ from_state := st.current, to_state := tgt, reason := reason }],
        previous := if tgt = .paused then some st.current else st.previous,
        current := tgt })
  else (false, st)

/-- `OrchestratorState.get_resume_state`. -/
def getResumeState (st : OrchestratorState) : Option PipelineState :=
  if st.current = .paused then st.previous else none

/-- `OrchestratorState.is_pausable`. -/
def isPausable (st : OrchestratorState) : Bool :=
  executionPhases.contains st.current || st.current = .awaiting_decision

/-- `MDAPOrchestrator.pause` (state effects; event emission omitted):
refuse when not pausable, otherwise transition to `PAUSED` and report
success. -/
def pause (st : OrchestratorState) : Bool × OrchestratorState :=
  if isPausable st then (true, (transition st .paused "Pausado pelo usuário").2)
  else (false, st)

/-- `MDAPOrchestrator.resume`: refuse when no resume state is saved,
otherwise transition back to it and report success. -/
def resume (st : OrchestratorState) : Bool × OrchestratorState :=
  match getResumeState st with
  | none => (false, st)
  | some rs => (true, (transition st rs "Retomando execução").2)

/-- `MDAPOrchestrator.cancel`: refuse when already `IDLE`, otherwise
call `transition(IDLE)` — discarding its boolean result — and report
success. -/
def cancel (st : OrchestratorState) : Bool × OrchestratorState :=
  if st.current = .idle then (false, st)
  else (true, (transition st .idle "Cancelado pelo usuário").2)

/-- `mdap_cli.orchestrator.intent.UserIntent`. -/
inductive UserIntent where
  | task_simple
  | task_complex
  | task_explore
  | meta_status
  | meta_explain
  | meta_help
  | control_pause
  | control_resume
  | control_cancel
  | chat_greeting
  | chat_general
  | chat_question
  deriving DecidableEq, Repr

/-- `mdap_cli.orchestrator.intent.IntentResult`. Python's float
confidence is embedded as a rational; every literal the code compares
against (0.5, 0.6, 0.7) is exactly representable in both. -/
structure IntentResult where
  intent : UserIntent
  confidence : Rat
  task : String
  reasoning : String
  deriving DecidableEq, Repr

/-- Python `str.upper()` (ASCII part, character by character; the
intent labels are ASCII). Implemented structurally so that concrete
instances evaluate. -/
def pyUpper (s : String) : String := String.mk (s.data.map Char.toUpper)

/-- The `intent_map` dictionary of `IntentDetector._parse_response`,
with its `.get(..., CHAT_GENERAL)` default for unknown labels. -/
def intentMap (s : String) : UserIntent :=
  if s = "TASK_SIMPLE" then .task_simple
  else if s = "TASK_COMPLEX" then .task_complex
  else if s = "TASK_EXPLORE" then .task_explore
  else if s = "META_STATUS" then .meta_status
  else if s = "META_EXPLAIN" then .meta_explain
  else if s = "META_HELP" then .meta_help
  else if s = "CONTROL_PAUSE" then .control_pause
  else if s = "CONTROL_RESUME" then .control_resume
  else if s = "CONTROL_CANCEL" then .control_cancel
  else if s = "CHAT_GREETING" then .chat_greeting
  else if s = "CHAT_GENERAL" then .chat_general
  else if s = "CHAT_QUESTION" then .chat_question
  else .chat_general

/-- The field-extraction tail of `IntentDetector._parse_response`
(lines 182-210), applied to a reply whose JSON object decoded to the
given optional fields (the JSON transport itself is outside the
property: the claim quantifies over replies that parse). Defaults:
intent `"CHAT_GENERAL"`, confidence 0.7, task and reasoning empty; an
empty task is replaced by the original message. -/
def parseDecoded (intentField : Option String) (confidenceField : Option Rat)
    (taskField reasoningField : Option String) (orig : String) : IntentResult :=
  let intentStr := pyUpper (intentField.getD "CHAT_GENERAL")
  let conf := confidenceField.getD (mkRat 7 10)
  let task := taskField.getD ""
  { intent := intentMap intentStr,
    confidence := conf,
    task := if task = "" then orig else task,
    reasoning := reasoningField.getD "" }

/-- The post-parse step of `IntentDetector.detect` (lines 96-104) for a
reply that decoded: the local keyword fallback (`_detect_local`,
embedded abstractly as `localResult` since its content is independent
of the reply) is consulted only when the parse produced the failure
sentinel — confidence exactly 0.5 together with intent `CHAT_GENERAL`;
every other parsed result is returned to the caller unchanged. -/
def detectFromDecoded (parsed : IntentResult) (localResult : Option IntentResult) :
    IntentResult :=
  if parsed.confidence = mkRat 1 2 ∧ parsed.intent = .chat_general then
    localResult.getD parsed
  else parsed

end MdapCli

namespace Mdap

/-- Modelled from the spec: the discriminator's classification order —
the candidate is compared against the representative of each existing
group in insertion order (threading the memoisation cache) and the
first YES selects that group; exhausting the list selects none. The
relation ties the initial cache, the group list, the selected group and
the final cache together. -/
inductive FindRel (eq : String → String → Bool) (code : String) :
    Cache → List SemanticGroup → Option SemanticGroup → Cache → Prop where
  | nil (c : Cache) : FindRel eq code c [] none c
  | here (c c' : Cache) (g : SemanticGroup) (gs : List SemanticGroup)
      (h : compareFn eq c code g.representative.code = (true, c')) :
      FindRel eq code c (g :: gs) (some g) c'
  | there (c c' c'' : Cache) (g : SemanticGroup) (gs : List SemanticGroup)
      (r : Option SemanticGroup)
      (h : compareFn eq c code g.representative.code = (false, c'))
      (ht : FindRel eq code c' gs r c'') :
      FindRel eq code c (g :: gs) r c''

/-- The invariant of the `Voter.vote` loop: the sample count respects
the bound, an incomplete session has no winner with margin `k` among
the current groups, and a complete session's recorded winner is exactly
the group the discriminator reported. -/
def VoteInv (k maxSamples : Nat) (st : VoteState) : Prop :=
  st.samples.length ≤ maxSamples
  ∧ (st.is_complete = false → getWinner k st.disc.groups = none)
  ∧ (st.is_complete = true →
      ∃ w, st.winner = some w ∧ getWinner k st.disc.groups = some w)

/-- Concrete generator outcomes for a two-group voting run: candidates
A, B, A, A with exact string equality as the semantic oracle. -/
def c1wOuts : List GenOutcome :=
  [.ok "def f(): return 1" 5, .ok "x = 1 + 200" 5,
   .ok "def f(): return 1" 5, .ok "def f(): return 1" 5]

/-- The exact-equality comparison oracle used by the concrete runs. -/
def strEqOracle : String → String → Bool := fun a b => a == b

/-- The always-succeeding `ast.parse` oracle for concrete runs whose
candidates are valid Python. -/
def pyParseOk : String → Option String := fun _ => none

/-- The loop state reached by the concrete two-group run (k = 2,
max_samples = 10). -/
def c1wSt : VoteState :=
  (voteLoop strEqOracle pyParseOk {} .python 2 10 c1wOuts initVoteState).1.getD
    initVoteState

/-- The vote result assembled from the concrete two-group run. -/
def c1wRes : VoteResult :=
  (buildResult c1wSt).getD
    { winner := mkCandidate "" 0, groups := [], votes_per_group := [],
      total_samples := 0, winning_margin := 0 }

end Mdap

namespace MdapCli

/-- The orchestrator state after legitimately starting a pipeline:
`IDLE → EXPANDING` (the transition `start_task` performs). -/
def expandingState : OrchestratorState :=
  (transition initOrchState .expanding "Iniciando expansão de requisitos").2

end MdapCli

namespace MdapCli

/-- C2 (code bug): from the execution phase `EXPANDING` — entered by the
legitimate `IDLE → EXPANDING` start transition — `cancel` reports
success (`True`) yet the state does not move to `IDLE`: the pair
`(EXPANDING, IDLE)` is absent from `VALID_TRANSITIONS`, so the
`transition(IDLE)` call inside `cancel` is rejected and its discarded
boolean leaves the orchestrator stuck in `EXPANDING`, contradicting
both the spec and `cancel`'s own docstring ("volta ao IDLE"). -/
theorem c2_cancel_does_not_reach_idle_from_execution :
    (cancel expandingState).1 = true
    ∧ (cancel expandingState).2.current = .expanding
    ∧ (cancel expandingState).2.current ≠ .idle
    ∧ canTransition expandingState .idle = false := by decide

/-- C3 counterexample: at the invalid pair `(IDLE, COMPLETED)` the
transition function returns the value `False` with the state — history
included — unchanged. The embedded function is total, mirroring the
Python method, which contains no `raise`: rejection is signalled only
through the boolean result, so no internal error is raised, contrary to
the claim. -/
theorem c3_counterexample_rejection_returns_false :
    transition initOrchState .completed "x" = (false, initOrchState)
    ∧ (transition initOrchState .completed "x").2.transition_history = [] := by
  decide

/-- C3 (amended): an attempted transition whose pair is not in the
table is rejected with the current state and the transition history
left unchanged, the rejection being reported by a `False` return value
(no exception); and every transition actually taken — one returning
`True` — has its `(from, to)` pair in the transition table and is the
pair appended to the history. -/
theorem c3_invalid_transition_rejected (st : OrchestratorState)
    (tgt : PipelineState) (reason : String) :
    (canTransition st tgt = false → transition st tgt reason = (false, st))
    ∧ ((transition st tgt reason).1 = true → canTransition st tgt = true)
    ∧ ((transition st tgt reason).1 = true →
        (transition st tgt reason).2.transition_history
          = st.transition_history
            ++ [{ from_state := st.current, to_state := tgt, reason := reason }]) := by
  refine ⟨fun h => by simp [transition, h], fun h => ?_, fun h => ?_⟩ <;>
    cases hc : canTransition st tgt
  · rw [transition, hc] at h
    simp at h
  · rfl
  · rw [transition, hc] at h
    simp at h
  · simp [transition, hc]

/-- C3 witness: the amended theorem applied at the concrete invalid
pair `(IDLE, COMPLETED)`. -/
theorem c3_invalid_transition_rejected_witness :
    transition initOrchState .completed "x2" = (false, initOrchState) :=
  (c3_invalid_transition_rejected initOrchState .completed "x2").1 rfl

/-- C9 counterexample: a classification reply decoded as intent
`TASK_SIMPLE` with confidence 0.3 (below 0.6) is returned to the caller
as `TASK_SIMPLE`, not as general chat. -/
theorem c9_counterexample_low_confidence_intent_kept :
    (detectFromDecoded
      (parseDecoded (some "TASK_SIMPLE") (some (mkRat 3 10)) none none "msg")
      none).intent = .task_simple
    ∧ (parseDecoded (some "TASK_SIMPLE") (some (mkRat 3 10)) none none "msg").confidence
        < mkRat 6 10
    ∧ UserIntent.task_simple ≠ UserIntent.chat_general := by decide

/-- C9 (amended): the detector applies no confidence threshold — every
decoded reply whose intent label maps to something other than
`CHAT_GENERAL` is returned to the caller unchanged, whatever its
confidence; the general-chat fallback arises only from the
parse-failure sentinel (confidence 0.5 with intent `CHAT_GENERAL`) or
from a label the `intent_map` does not recognise. -/
theorem c9_no_low_confidence_fallback (intentF : Option String)
    (confF : Option Rat) (taskF reasF : Option String) (orig : String)
    (localR : Option IntentResult)
    (h : (parseDecoded intentF confF taskF reasF orig).intent ≠ .chat_general) :
    detectFromDecoded (parseDecoded intentF confF taskF reasF orig) localR
      = parseDecoded intentF confF taskF reasF orig := by
  unfold detectFromDecoded
  rw [if_neg]
  intro hc
  exact h hc.2

/-- C9 witness: the amended theorem applied to a decoded reply carrying
`TASK_COMPLEX` at confidence 0.1. -/
theorem c9_no_low_confidence_fallback_witness :
    detectFromDecoded
      (parseDecoded (some "TASK_COMPLEX") (some (mkRat 1 10)) none none "m") none
      = parseDecoded (some "TASK_COMPLEX") (some (mkRat 1 10)) none none "m" :=
  c9_no_low_confidence_fallback (some "TASK_COMPLEX") (some (mkRat 1 10))
    none none "m" none (by decide)

end MdapCli

namespace Mdap

/-- C4 counterexample: with a comparator that judges every pair
equivalent and k = 2, feeding five valid candidates does not yield a
session of 3 samples with winning_margin 3: the code stops earlier and
reports a different margin. -/
theorem c4_counterexample_not_three_samples :
    (vote (fun _ _ => true) pyParseOk {} .python 2 10
        (List.replicate 5 (.ok "def foo(): return 1" 10))).map
      (Option.map (fun r => (decide (r.total_samples = 3), decide (r.winning_margin = 3))))
      = some (some (false, false)) := by decide

/-- C4 (amended): with a comparator that judges every pair equivalent
and k = 2, the vote over five identical valid candidates terminates
after 2 candidates, having formed the single group `group_0` holding 2
votes with no rival (its lead of 2 over the absent runner-up meets k),
and the returned winning_margin is 0, because the result-building code
reports a margin only when more than one group exists. -/
theorem c4_clean_majority_two_samples :
    (vote (fun _ _ => true) pyParseOk {} .python 2 10
        (List.replicate 5 (.ok "def foo(): return 1" 10))).map
      (Option.map (fun r => (r.total_samples, r.votes_per_group, r.winning_margin)))
      = some (some (2, [("group_0", 2)], 0)) := by decide

end Mdap

namespace MdapCli

/-- C8: from every execution phase, pausing succeeds, saves the prior
state, and a subsequent resume returns the machine to exactly that
state; a second pause while already paused — or any pause request on a
paused machine — is refused and changes nothing. -/
theorem c8_pause_resume_round_trip (st : OrchestratorState)
    (h : st.current ∈ executionPhases) :
    (pause st).1 = true
    ∧ (pause st).2.current = .paused
    ∧ (pause st).2.previous = some st.current
    ∧ (resume (pause st).2).1 = true
    ∧ (resume (pause st).2).2.current = st.current
    ∧ pause (pause st).2 = (false, (pause st).2)
    ∧ (∀ st2 : OrchestratorState, st2.current = .paused → pause st2 = (false, st2)) := by
  have hgen : ∀ st2 : OrchestratorState, st2.current = .paused →
      pause st2 = (false, st2) := by
    intro st2 h2
    have hp : isPausable st2 = false := by
      rw [isPausable, h2]; decide
    simp [pause, hp]
  simp only [executionPhases, List.mem_cons, List.not_mem_nil, or_false] at h
  rcases h with h | h | h | h <;>
    refine ⟨?_, ?_, ?_, ?_, ?_, ?_, hgen⟩ <;>
      simp [pause, resume, isPausable, transition, canTransition, getResumeState,
        validTransitions, executionPhases, List.contains, h]

end MdapCli

namespace Mdap

/-- The source's `find_group` walk satisfies the spec's
first-match-in-order relation: groups are tried in insertion order with
the cache threaded through, and the first YES selects the group. -/
theorem findGroup_findRel (eq : String → String → Bool) (code : String) :
    ∀ (gs : List SemanticGroup) (c : Cache),
      FindRel eq code c gs (findGroup eq c code gs).1 (findGroup eq c code gs).2 := by
  intro gs
  induction gs with
  | nil => intro c; exact FindRel.nil c
  | cons g rest ih =>
    intro c
    cases hcmp : compareFn eq c code g.representative.code with
    | mk r c' =>
      cases r
      · have hred : findGroup eq c code (g :: rest) = findGroup eq c' code rest := by
          simp [findGroup, hcmp]
        rw [hred]
        exact FindRel.there c c' _ g rest _ hcmp (ih c')
      · have hred : findGroup eq c code (g :: rest) = (some g, c') := by
          simp [findGroup, hcmp]
        rw [hred]
        exact FindRel.here c c' g rest hcmp

/-- C5: classification compares the candidate against the group
representatives in insertion order and joins the group of the first
YES (the `FindRel` conjunct); joining sets the candidate's `group_id`
to that group's id, appends it to that group's member list, and
creates no new group; when no group answers YES a new group
`group_n` (n = number of existing groups) is appended whose
representative is the candidate and whose member list starts with it;
and every group's vote count equals the length of its member list. -/
theorem c5_classify_first_yes (eq : String → String → Bool)
    (d : Discriminator) (cand : Candidate) :
    FindRel eq cand.code d.cache d.groups
      (findGroup eq d.cache cand.code d.groups).1
      (findGroup eq d.cache cand.code d.groups).2
    ∧ (∀ g c', findGroup eq d.cache cand.code d.groups = (some g, c') →
        classify eq d cand
          = ({ groups := addToGroup d.groups g.id { cand with group_id := some g.id },
               cache := c' },
             { cand with group_id := some g.id })
          ∧ (classify eq d cand).1.groups.map SemanticGroup.id
              = d.groups.map SemanticGroup.id)
    ∧ (∀ c', findGroup eq d.cache cand.code d.groups = (none, c') →
        classify eq d cand
          = ({ groups := d.groups
                ++ [{ id := "group_" ++ toString d.groups.length,
                      representative :=
                        { cand with group_id := some ("group_" ++ toString d.groups.length) },
                      members :=
                        [{ cand with group_id := some ("group_" ++ toString d.groups.length) }] }],
               cache := c' },
             { cand with group_id := some ("group_" ++ toString d.groups.length) }))
    ∧ (∀ g, g ∈ (classify eq d cand).1.groups → g.votes = g.members.length) := by
  refine ⟨findGroup_findRel eq cand.code d.groups d.cache, ?_, ?_, fun g _ => rfl⟩
  · intro g c' hf
    refine ⟨by simp [classify, hf], ?_⟩
    simp only [classify, hf, addToGroup, List.map_map]
    apply List.map_congr_left
    intro x _
    by_cases hx : x.id = g.id <;> simp [hx]
  · intro c' hf
    simp [classify, hf]

/-- C5 witness: classifying into an empty discriminator creates
`group_0` with the candidate as representative and sole member. -/
theorem c5_classify_first_yes_witness :
    classify strEqOracle ⟨[], []⟩ ⟨"x := 41", 1, true, none, none⟩
      = (⟨[{ id := "group_0",
             representative := ⟨"x := 41", 1, true, none, some "group_0"⟩,
             members := [⟨"x := 41", 1, true, none, some "group_0"⟩] }], []⟩,
         ⟨"x := 41", 1, true, none, some "group_0"⟩) :=
  (c5_classify_first_yes strEqOracle ⟨[], []⟩ ⟨"x := 41", 1, true, none, none⟩).2.2.1
    [] rfl

/-- C7: the red-flag filter equals the spec-side runner that applies
the enabled checks in the fixed order length, format, syntax,
short-circuiting on the first failure with that check's reason; the
length check passes exactly when the token count does not exceed
`max_tokens_response`; the format check passes exactly when the
stripped content is non-empty, at least 10 characters, and free of the
recognised prose openers; the syntax check parses the fence-stripped
content for Python and balance-checks brackets (quote-aware) for
TypeScript; and the overall verdict passes exactly when every enabled
check passes (a disabled check cannot fail the candidate). The
embedding is a pure function — determinism and absence of network
calls are inherent. -/
theorem c7_red_flag_ordered_checks (pyParse : String → Option String)
    (cfg : MDAPConfig) (cand : Candidate) (lang : Language) :
    check pyParse cfg cand lang = runFirstFailure (orderedChecks pyParse cfg cand lang)
    ∧ checkLengthFn cfg cand = decide (cand.tokens_used ≤ cfg.max_tokens_response)
    ∧ (checkFormatFn cand).1
        = (!(pyStrip cand.code).isEmpty
           && !decide ((pyStrip cand.code).length < 10)
           && !matchesProse (pyStrip cand.code))
    ∧ (checkSyntaxFn pyParse cand .python).1 = (pyParse (extractCode cand.code)).isNone
    ∧ (checkSyntaxFn pyParse cand .typescript).1
        = (checkTypescriptSyntax (extractCode cand.code)).1
    ∧ (check pyParse cfg cand lang).passed
        = ((!cfg.enable_length_check || checkLengthFn cfg cand)
           && (!cfg.enable_format_check || (checkFormatFn cand).1)
           && (!cfg.enable_syntax_check || (checkSyntaxFn pyParse cand lang).1)) := by
  refine ⟨?_, rfl, ?_, ?_, rfl, ?_⟩
  · cases hl : cfg.enable_length_check <;> cases hf : cfg.enable_format_check <;>
      cases hs : cfg.enable_syntax_check <;> cases h1 : checkLengthFn cfg cand <;>
      cases h2 : (checkFormatFn cand).1 <;>
      cases h3 : (checkSyntaxFn pyParse cand lang).1 <;>
      simp [check, runFirstFailure, orderedChecks, hl, hf, hs, h1, h2, h3]
  · cases h1 : (pyStrip cand.code).isEmpty <;>
      by_cases h2 : (pyStrip cand.code).length < 10 <;>
      cases h3 : matchesProse (pyStrip cand.code) <;>
      simp [checkFormatFn, h1, h2, h3]
  · cases hp : pyParse (extractCode cand.code) <;> simp [checkSyntaxFn, hp]
  · cases hl : cfg.enable_length_check <;> cases hf : cfg.enable_format_check <;>
      cases hs : cfg.enable_syntax_check <;> cases h1 : checkLengthFn cfg cand <;>
      cases h2 : (checkFormatFn cand).1 <;>
      cases h3 : (checkSyntaxFn pyParse cand lang).1 <;>
      simp [check, hl, hf, hs, h1, h2, h3]

end Mdap

namespace Mdap

/-- A raised generator call leaves the voting state untouched. -/
theorem voteIter_err (eq : String → String → Bool) (py : String → Option String)
    (cfg : MDAPConfig) (lang : Language) (k : Nat) (st : VoteState) :
    voteIter eq py cfg lang k st .err = st := rfl

/-- A normally returning generator call adds exactly one sample,
whether the candidate survives the red-flag filter or not. -/
theorem voteIter_ok_samples_length (eq : String → String → Bool)
    (py : String → Option String) (cfg : MDAPConfig) (lang : Language)
    (k : Nat) (st : VoteState) (content : String) (toks : Nat) :
    (voteIter eq py cfg lang k st (.ok content toks)).samples.length
      = st.samples.length + 1 := by
  cases hcl : classify eq st.disc (mkCandidate content toks) with
  | mk disc' cand' =>
    cases hp : (check py cfg (mkCandidate content toks) lang).passed
    · simp [voteIter, hp]
    · cases hw : getWinner k disc'.groups <;>
        simp [voteIter, hp, hcl, hw]

/-- A red-flagged candidate is recorded in `samples` and
`invalid_samples` with `is_valid = False` and the filter's reason; the
discriminator state, the valid-sample list, and the completion flag are
untouched — the candidate is never classified. -/
theorem voteIter_flagged (eq : String → String → Bool)
    (py : String → Option String) (cfg : MDAPConfig) (lang : Language)
    (k : Nat) (st : VoteState) (content : String) (toks : Nat)
    (h : (check py cfg (mkCandidate content toks) lang).passed = false) :
    voteIter eq py cfg lang k st (.ok content toks)
      = { st with
          samples := st.samples
            ++ [flagCandidate (mkCandidate content toks)
                  (check py cfg (mkCandidate content toks) lang)],
          invalid_samples := st.invalid_samples
            ++ [flagCandidate (mkCandidate content toks)
                  (check py cfg (mkCandidate content toks) lang)] } := by
  simp [voteIter, h]

/-- One loop iteration from an incomplete, winnerless state below the
sample bound re-establishes the voting invariant. -/
theorem voteIter_preserves_inv (eq : String → String → Bool)
    (py : String → Option String) (cfg : MDAPConfig) (lang : Language)
    (k maxS : Nat) (st : VoteState) (o : GenOutcome)
    (hc : st.is_complete = false)
    (hg : getWinner k st.disc.groups = none)
    (hlen : st.samples.length < maxS) :
    VoteInv k maxS (voteIter eq py cfg lang k st o) := by
  cases o with
  | err =>
    rw [voteIter_err]
    exact ⟨Nat.le_of_lt hlen, fun _ => hg,
      fun h => absurd h (by rw [hc]; exact Bool.false_ne_true)⟩
  | ok content toks =>
    cases hcl : classify eq st.disc (mkCandidate content toks) with
    | mk disc' cand' =>
      cases hp : (check py cfg (mkCandidate content toks) lang).passed
      · rw [voteIter_flagged eq py cfg lang k st content toks hp]
        refine ⟨by simp; omega, fun _ => hg,
          fun h => absurd h (by simp [hc])⟩
      · cases hw : getWinner k disc'.groups
        · have hred : voteIter eq py cfg lang k st (.ok content toks)
              = { st with
                  samples := st.samples ++ [cand'],
                  valid_samples := st.valid_samples ++ [cand'],
                  disc := disc' } := by
            simp [voteIter, hp, hcl, hw]
          rw [hred]
          refine ⟨by simp; omega, fun _ => hw,
            fun h => absurd h (by simp [hc])⟩
        · rename_i w
          have hred : voteIter eq py cfg lang k st (.ok content toks)
              = { st with
                  samples := st.samples ++ [cand'],
                  valid_samples := st.valid_samples ++ [cand'],
                  disc := disc',
                  is_complete := true,
                  winner := some w } := by
            simp [voteIter, hp, hcl, hw]
          rw [hred]
          exact ⟨by simp; omega,
            fun h => by simp at h,
            fun _ => ⟨w, rfl, hw⟩⟩

end Mdap

namespace Mdap

/-- Exiting the loop incomplete means the sample bound was hit
exactly. -/
theorem guard_false_exit (maxS : Nat) (st : VoteState)
    (hle : st.samples.length ≤ maxS)
    (hguard : ¬((st.samples.length < maxS && !st.is_complete) = true))
    (hcf : st.is_complete = false) : st.samples.length = maxS := by
  rw [hcf] at hguard
  simp at hguard
  omega

/-- The voting loop preserves the invariant, and a run that ends
without a declared winner consumed exactly `max_samples` samples. -/
theorem voteLoop_preserves_inv (eq : String → String → Bool)
    (py : String → Option String) (cfg : MDAPConfig) (lang : Language)
    (k maxS : Nat) :
    ∀ (outs : List GenOutcome) (st st' : VoteState) (n : Nat),
      VoteInv k maxS st →
      voteLoop eq py cfg lang k maxS outs st = (some st', n) →
      VoteInv k maxS st'
      ∧ (st'.is_complete = false → st'.samples.length = maxS) := by
  intro outs
  induction outs with
  | nil =>
    intro st st' n hinv hrun
    unfold voteLoop at hrun
    by_cases hguard : (st.samples.length < maxS && !st.is_complete) = true
    · rw [if_pos hguard] at hrun
      simp at hrun
    · rw [if_neg hguard] at hrun
      simp only [Prod.mk.injEq, Option.some.injEq] at hrun
      obtain ⟨rfl, rfl⟩ := hrun
      exact ⟨hinv, guard_false_exit maxS st hinv.1 hguard⟩
  | cons o rest ih =>
    intro st st' n hinv hrun
    unfold voteLoop at hrun
    by_cases hguard : (st.samples.length < maxS && !st.is_complete) = true
    · rw [if_pos hguard] at hrun
      obtain ⟨hlen, hcf⟩ : st.samples.length < maxS ∧ st.is_complete = false := by
        simpa [Bool.and_eq_true, Bool.not_eq_true', decide_eq_true_eq] using hguard
      have hstep := voteIter_preserves_inv eq py cfg lang k maxS st o hcf
        (hinv.2.1 hcf) hlen
      cases hrec : voteLoop eq py cfg lang k maxS rest
          (voteIter eq py cfg lang k st o) with
      | mk res n0 =>
        rw [hrec] at hrun
        cases res with
        | none => simp at hrun
        | some st'' =>
          simp only [Prod.mk.injEq, Option.some.injEq] at hrun
          obtain ⟨rfl, rfl⟩ := hrun
          exact ih (voteIter eq py cfg lang k st o) st'' n0 hstep hrec
    · rw [if_neg hguard] at hrun
      simp only [Prod.mk.injEq, Option.some.injEq] at hrun
      obtain ⟨rfl, rfl⟩ := hrun
      exact ⟨hinv, guard_false_exit maxS st hinv.1 hguard⟩

/-- When every provided generator outcome is a normal return and at
least `max_samples` many are provided, the loop finishes and makes at
most `max_samples` generator invocations beyond the samples already
drawn. -/
theorem voteLoop_allOk (eq : String → String → Bool)
    (py : String → Option String) (cfg : MDAPConfig) (lang : Language)
    (k maxS : Nat) :
    ∀ (outs : List GenOutcome) (st : VoteState),
      (∀ o ∈ outs, o ≠ GenOutcome.err) →
      maxS ≤ st.samples.length + outs.length →
      st.samples.length ≤ maxS →
      ∃ st' n, voteLoop eq py cfg lang k maxS outs st = (some st', n)
        ∧ st.samples.length + n ≤ maxS := by
  intro outs
  induction outs with
  | nil =>
    intro st _ hge hle
    unfold voteLoop
    by_cases hguard : (st.samples.length < maxS && !st.is_complete) = true
    · exfalso
      obtain ⟨hlt, -⟩ : st.samples.length < maxS ∧ st.is_complete = false := by
        simpa [Bool.and_eq_true, Bool.not_eq_true', decide_eq_true_eq] using hguard
      simp at hge
      omega
    · exact ⟨st, 0, by rw [if_neg hguard], by omega⟩
  | cons o rest ih =>
    intro st hok hge hle
    unfold voteLoop
    by_cases hguard : (st.samples.length < maxS && !st.is_complete) = true
    · rw [if_pos hguard]
      obtain ⟨hlen, -⟩ : st.samples.length < maxS ∧ st.is_complete = false := by
        simpa [Bool.and_eq_true, Bool.not_eq_true', decide_eq_true_eq] using hguard
      have hone : (voteIter eq py cfg lang k st o).samples.length
          = st.samples.length + 1 := by
        cases o with
        | err => exact absurd rfl (hok .err (List.mem_cons_self _ _))
        | ok content toks =>
          exact voteIter_ok_samples_length eq py cfg lang k st content toks
      obtain ⟨st', n0, hr, hb⟩ := ih (voteIter eq py cfg lang k st o)
        (fun o' ho' => hok o' (List.mem_cons_of_mem _ ho'))
        (by rw [hone]; simp at hge ⊢; omega)
        (by omega)
      refine ⟨st', n0 + 1, ?_, by omega⟩
      rw [hr]
    · rw [if_neg hguard]
      exact ⟨st, 0, rfl, by omega⟩

/-- The number of samples drawn by a finished loop equals the number of
normally returning generator invocations among those it made. -/
theorem voteLoop_samples_countOk (eq : String → String → Bool)
    (py : String → Option String) (cfg : MDAPConfig) (lang : Language)
    (k maxS : Nat) :
    ∀ (outs : List GenOutcome) (st st' : VoteState) (n : Nat),
      voteLoop eq py cfg lang k maxS outs st = (some st', n) →
      st'.samples.length = st.samples.length + countOk (List.take n outs) := by
  intro outs
  induction outs with
  | nil =>
    intro st st' n hrun
    unfold voteLoop at hrun
    by_cases hguard : (st.samples.length < maxS && !st.is_complete) = true
    · rw [if_pos hguard] at hrun; simp at hrun
    · rw [if_neg hguard] at hrun
      simp only [Prod.mk.injEq, Option.some.injEq] at hrun
      obtain ⟨rfl, rfl⟩ := hrun
      simp [countOk]
  | cons o rest ih =>
    intro st st' n hrun
    unfold voteLoop at hrun
    by_cases hguard : (st.samples.length < maxS && !st.is_complete) = true
    · rw [if_pos hguard] at hrun
      cases hrec : voteLoop eq py cfg lang k maxS rest
          (voteIter eq py cfg lang k st o) with
      | mk res n0 =>
        rw [hrec] at hrun
        cases res with
        | none => simp at hrun
        | some st'' =>
          simp only [Prod.mk.injEq, Option.some.injEq] at hrun
          obtain ⟨rfl, rfl⟩ := hrun
          have hih := ih (voteIter eq py cfg lang k st o) st'' n0 hrec
          rw [List.take_succ_cons]
          cases o with
          | err =>
            rw [voteIter_err] at hih
            simp only [countOk, List.countP_cons] at hih ⊢
            simpa using hih
          | ok content toks =>
            rw [hih, voteIter_ok_samples_length]
            simp only [countOk, List.countP_cons]
            simp
            omega
    · rw [if_neg hguard] at hrun
      simp only [Prod.mk.injEq, Option.some.injEq] at hrun
      obtain ⟨rfl, rfl⟩ := hrun
      simp [countOk]

end Mdap

namespace Mdap

/-- Inserting a group and inserting its vote count commute with
projecting votes. -/
theorem insertGroupDesc_map_votes (g : SemanticGroup) (l : List SemanticGroup) :
    (insertGroupDesc g l).map SemanticGroup.votes
      = insertNatDesc g.votes (l.map SemanticGroup.votes) := by
  induction l with
  | nil => rfl
  | cons h t ih =>
    unfold insertGroupDesc insertNatDesc
    by_cases hv : h.votes > g.votes <;> simp [hv, ih]

/-- Sorting groups by votes and sorting the vote list agree. -/
theorem sortGroupsDesc_map_votes (gs : List SemanticGroup) :
    (sortGroupsDesc gs).map SemanticGroup.votes
      = sortNatDesc (gs.map SemanticGroup.votes) := by
  induction gs with
  | nil => rfl
  | cons g t ih =>
    simp [sortGroupsDesc, sortNatDesc, insertGroupDesc_map_votes, ih]

/-- Insertion preserves length. -/
theorem insertGroupDesc_length (g : SemanticGroup) (l : List SemanticGroup) :
    (insertGroupDesc g l).length = l.length + 1 := by
  induction l with
  | nil => rfl
  | cons h t ih =>
    unfold insertGroupDesc
    by_cases hv : h.votes > g.votes <;> simp [hv, ih]

/-- Sorting preserves length. -/
theorem sortGroupsDesc_length (gs : List SemanticGroup) :
    (sortGroupsDesc gs).length = gs.length := by
  induction gs with
  | nil => rfl
  | cons g t ih => simp [sortGroupsDesc, insertGroupDesc_length, ih]

/-- When the discriminator declares a winner among at least two groups,
the margin reported by the result builder is at least `k`. -/
theorem getWinner_some_margin (k : Nat) (gs : List SemanticGroup)
    (w : SemanticGroup) (h2 : 2 ≤ gs.length)
    (hw : getWinner k gs = some w) : k ≤ marginOf gs := by
  unfold getWinner at hw
  cases hs : sortGroupsDesc gs with
  | nil =>
    rw [hs] at hw
    cases hw
  | cons leader rest =>
    rw [hs] at hw
    cases rest with
    | nil =>
      have hl := sortGroupsDesc_length gs
      rw [hs] at hl
      simp at hl
      omega
    | cons r rest' =>
      dsimp only at hw
      by_cases hcond : leader.votes - r.votes ≥ k
      · unfold marginOf
        rw [if_pos (by omega)]
        rw [← sortGroupsDesc_map_votes, hs]
        simpa using hcond
      · rw [if_neg hcond] at hw
        cases hw

/-- When the discriminator declares no winner (and `k` is positive),
the margin reported by the result builder is below `k`. -/
theorem getWinner_none_margin (k : Nat) (gs : List SemanticGroup)
    (hk : 1 ≤ k) (hw : getWinner k gs = none) : marginOf gs < k := by
  unfold marginOf
  by_cases hlen : 1 < gs.length
  · rw [if_pos hlen]
    unfold getWinner at hw
    cases hs : sortGroupsDesc gs with
    | nil =>
      rw [← sortGroupsDesc_map_votes, hs]
      simpa using hk
    | cons leader rest =>
      rw [hs] at hw
      cases rest with
      | nil =>
        rw [← sortGroupsDesc_map_votes, hs]
        simpa using hk
      | cons r rest' =>
        dsimp only at hw
        rw [← sortGroupsDesc_map_votes, hs]
        by_cases hcond : leader.votes - r.votes ≥ k
        · rw [if_pos hcond] at hw
          cases hw
        · have hlt : leader.votes - r.votes < k := by omega
          simpa using hlt
  · rw [if_neg hlen]
    exact hk

/-- The fields of a successfully assembled vote result, in terms of the
final loop state. -/
theorem buildResult_fields (st : VoteState) (res : VoteResult)
    (h : buildResult st = some res) :
    res.winning_margin = marginOf st.disc.groups
    ∧ res.total_samples = st.samples.length
    ∧ res.votes_per_group.length = st.disc.groups.length := by
  unfold buildResult at h
  dsimp only at h
  cases hw : st.winner with
  | some w =>
    rw [hw] at h
    dsimp only at h
    simp only [Option.some.injEq] at h
    rw [← h]
    simp
  | none =>
    rw [hw] at h
    cases hs : sortGroupsDesc st.disc.groups with
    | nil =>
      rw [hs] at h
      dsimp only at h
      cases h
    | cons g rest =>
      rw [hs] at h
      dsimp only at h
      simp only [Option.some.injEq] at h
      rw [← h]
      simp

end Mdap

namespace Mdap

/-- C1 counterexample: a completed session (k = 1, max_samples = 5, one
valid candidate, all comparisons YES) in which the single group won by
the k-margin rule, yet the returned result satisfies neither
`winning_margin ≥ k` (the margin is 0 because only one group exists)
nor `total_samples = max_samples` (only 1 of 5 samples was drawn) — the
claimed disjunction evaluates to false, and it fails precisely when the
winning group is the only group formed. -/
theorem c1_counterexample_single_group :
    (vote (fun _ _ => true) pyParseOk {} .python 1 5
        [.ok "def foo(): return 1" 10]).map
      (Option.map (fun r =>
        decide (1 ≤ r.winning_margin) || decide (r.total_samples = 5)))
      = some (some false)
    ∧ (voteLoop (fun _ _ => true) pyParseOk {} .python 1 5
        [.ok "def foo(): return 1" 10] initVoteState).1.map VoteState.is_complete
      = some true := by decide

/-- C1 (amended): for every completed voting session, `winning_margin ≥ k`
implies the vote terminated by the k-margin rule; conversely, the
k-margin rule with at least two groups formed forces
`winning_margin ≥ k`; a session that was not terminated by the
k-margin rule drew exactly `max_samples` samples; and whenever at most
one group exists the returned `winning_margin` is 0 — so the original
biconditional (and the disjunction `winning_margin ≥ k` or
`total_samples = max_samples`) holds whenever at least two groups were
formed, but fails when the winning group is the only group. The bound
`1 ≤ k` reflects the Python `k = k or config.k` defaulting, which
replaces 0/None by the configured positive margin. -/
theorem c1_winning_margin_characterisation (eq : String → String → Bool)
    (py : String → Option String) (cfg : MDAPConfig) (lang : Language)
    (k maxS : Nat) (outs : List GenOutcome) (st' : VoteState) (n : Nat)
    (res : VoteResult)
    (hk : 1 ≤ k)
    (hrun : voteLoop eq py cfg lang k maxS outs initVoteState = (some st', n))
    (hres : buildResult st' = some res) :
    (k ≤ res.winning_margin → st'.is_complete = true)
    ∧ (st'.is_complete = true → 2 ≤ res.votes_per_group.length →
        k ≤ res.winning_margin)
    ∧ (st'.is_complete = false → res.total_samples = maxS)
    ∧ (res.votes_per_group.length ≤ 1 → res.winning_margin = 0) := by
  have hinv0 : VoteInv k maxS initVoteState :=
    ⟨Nat.zero_le _, fun _ => rfl, fun h => Bool.noConfusion h⟩
  obtain ⟨hinv, hexit⟩ := voteLoop_preserves_inv eq py cfg lang k maxS outs
    initVoteState st' n hinv0 hrun
  obtain ⟨hm, ht, hv⟩ := buildResult_fields st' res hres
  refine ⟨?_, ?_, ?_, ?_⟩
  · intro hmar
    by_contra hC
    have hcf : st'.is_complete = false := by
      cases hb : st'.is_complete
      · rfl
      · exact absurd hb hC
    have hlt := getWinner_none_margin k st'.disc.groups hk (hinv.2.1 hcf)
    rw [hm] at hmar
    omega
  · intro hct h2
    obtain ⟨w, -, hget⟩ := hinv.2.2 hct
    have := getWinner_some_margin k st'.disc.groups w (by omega) hget
    omega
  · intro hcf
    rw [ht]
    exact hexit hcf
  · intro h1
    rw [hm]
    unfold marginOf
    rw [if_neg (by omega)]

/-- C1 witness: the amended theorem applied to the concrete two-group
run (candidates A, B, A, A under exact string equality, k = 2,
max_samples = 10): the session completed by the k-margin rule and its
returned margin (2) meets k. -/
theorem c1_winning_margin_characterisation_witness :
    c1wSt.is_complete = true ∧ 2 ≤ c1wRes.winning_margin := by
  have h := c1_winning_margin_characterisation strEqOracle pyParseOk {} .python
    2 10 c1wOuts c1wSt 4 c1wRes (by decide) rfl rfl
  have hc : c1wSt.is_complete = true := by decide
  exact ⟨hc, h.2.1 hc (by decide)⟩

/-- C6: a generator invocation that raises leaves the session untouched
(the sample count does not advance); a candidate rejected by the
red-flag filter is appended to both `samples` (counting toward
`max_samples`) and `invalid_samples`, marked `is_valid = False` with
the filter's reason recorded, while the discriminator state, the
valid-sample list and the completion flag are untouched (it is never
classified into any semantic group); and for every finished loop the
number of samples — the `total_samples` of the result — equals the
number of generator invocations that returned normally among the `n`
invocations made. -/
theorem c6_transport_errors_and_red_flags (eq : String → String → Bool)
    (py : String → Option String) (cfg : MDAPConfig) (lang : Language)
    (k maxS : Nat) :
    (∀ st : VoteState, voteIter eq py cfg lang k st .err = st)
    ∧ (∀ (st : VoteState) (content : String) (toks : Nat),
        (check py cfg (mkCandidate content toks) lang).passed = false →
        voteIter eq py cfg lang k st (.ok content toks)
          = { st with
              samples := st.samples
                ++ [flagCandidate (mkCandidate content toks)
                      (check py cfg (mkCandidate content toks) lang)],
              invalid_samples := st.invalid_samples
                ++ [flagCandidate (mkCandidate content toks)
                      (check py cfg (mkCandidate content toks) lang)] }
          ∧ (flagCandidate (mkCandidate content toks)
              (check py cfg (mkCandidate content toks) lang)).is_valid = false
          ∧ (flagCandidate (mkCandidate content toks)
              (check py cfg (mkCandidate content toks) lang)).red_flag_reason
            = (check py cfg (mkCandidate content toks) lang).reason)
    ∧ (∀ (outs : List GenOutcome) (st st' : VoteState) (n : Nat),
        voteLoop eq py cfg lang k maxS outs st = (some st', n) →
        st'.samples.length = st.samples.length + countOk (List.take n outs)) := by
  refine ⟨fun st => voteIter_err eq py cfg lang k st, ?_, ?_⟩
  · intro st content toks h
    exact ⟨voteIter_flagged eq py cfg lang k st content toks h, rfl, rfl⟩
  · exact voteLoop_samples_countOk eq py cfg lang k maxS

/-- C6 witness: the theorem applied to a red-flagged candidate ("hi"
fails the format check) and to the concrete two-group run (4
invocations, all returning normally, 4 samples). -/
theorem c6_transport_errors_and_red_flags_witness :
    voteIter strEqOracle pyParseOk {} .python 2 initVoteState (.ok "hi" 1)
      = { initVoteState with
          samples := [flagCandidate (mkCandidate "hi" 1)
            (check pyParseOk {} (mkCandidate "hi" 1) .python)],
          invalid_samples := [flagCandidate (mkCandidate "hi" 1)
            (check pyParseOk {} (mkCandidate "hi" 1) .python)] }
    ∧ c1wSt.samples.length
        = initVoteState.samples.length + countOk (List.take 4 c1wOuts) := by
  constructor
  · exact ((c6_transport_errors_and_red_flags strEqOracle pyParseOk {} .python
      2 10).2.1 initVoteState "hi" 1 (by decide)).1
  · exact (c6_transport_errors_and_red_flags strEqOracle pyParseOk {} .python
      2 10).2.2 c1wOuts initVoteState c1wSt 4 rfl

/-- C10: when every generator invocation returns normally (the outcome
list contains no raise) and enough outcomes are provided, the voting
loop terminates after at most `max_samples` generator invocations and
`Voter.vote` returns the assembled result; raising calls do not
advance the sample count (see the error conjunct of C6's theorem), so
the bound is on counted samples. -/
theorem c10_vote_terminates_within_max_samples (eq : String → String → Bool)
    (py : String → Option String) (cfg : MDAPConfig) (lang : Language)
    (k maxS : Nat) (outs : List GenOutcome)
    (hok : ∀ o ∈ outs, o ≠ GenOutcome.err)
    (hlen : maxS ≤ outs.length) :
    ∃ st n, voteLoop eq py cfg lang k maxS outs initVoteState = (some st, n)
      ∧ n ≤ maxS
      ∧ vote eq py cfg lang k maxS outs = some (buildResult st) := by
  obtain ⟨st, n, hr, hb⟩ := voteLoop_allOk eq py cfg lang k maxS outs
    initVoteState hok (by simpa [initVoteState] using hlen)
    (by simp [initVoteState])
  refine ⟨st, n, hr, by simpa [initVoteState] using hb, ?_⟩
  unfold vote
  rw [hr]

/-- C10 witness: the theorem applied to two normally returning
generator outcomes with max_samples = 2 and k = 5 (no winner is ever
declared; the loop stops by exhaustion after 2 invocations). -/
theorem c10_vote_terminates_witness :
    ∃ st n, voteLoop strEqOracle pyParseOk {} .python 5 2
        [.ok "def a(): return 1" 1, .ok "def b(): return 2" 1] initVoteState
        = (some st, n)
      ∧ n ≤ 2
      ∧ vote strEqOracle pyParseOk {} .python 5 2
          [.ok "def a(): return 1" 1, .ok "def b(): return 2" 1]
          = some (buildResult st) :=
  c10_vote_terminates_within_max_samples strEqOracle pyParseOk {} .python 5 2
    [.ok "def a(): return 1" 1, .ok "def b(): return 2" 1]
    (by decide) (by decide)

end Mdap

namespace MdapCli

/-- C8 witness: the round-trip theorem applied to the concrete
`EXPANDING` state. -/
theorem c8_pause_resume_round_trip_witness :
    (pause expandingState).1 = true
    ∧ (resume (pause expandingState).2).2.current = .expanding := by
  have h := c8_pause_resume_round_trip expandingState (by decide)
  exact ⟨h.1, h.2.2.2.2.1⟩

end MdapCli
